import Mathlib

/-!
Verification of the CGPO portfolio-optimizer backend.

Shallow embedding of the core numeric and control logic of
`backend/core/market_env.py`, `backend/core/graph_engine.py`,
`backend/core/agent.py`, `backend/core/models.py` and `backend/main.py`,
with theorems settling the specified behavioral claims.

Floating-point arithmetic of the Python code is modelled over the reals;
Python lists become Lean lists (most recent element last).
-/

namespace MarketEnv

/-- Arithmetic mean of a list, `np.mean`: sum divided by length
(junk value `x/0 = 0` on the empty list, which the code never hits on the
guarded paths). -/
noncomputable def listMean (l : List ℝ) : ℝ := l.sum / l.length

/-- Population standard deviation of a list, `np.std` (ddof = 0):
square root of the mean squared deviation from the mean. -/
noncomputable def listStd (l : List ℝ) : ℝ :=
  Real.sqrt (listMean (l.map fun x => (x - listMean l) ^ 2))

/-- Python slice `l[-k:]`: the last `k` elements (the whole list when it is
shorter than `k`). -/
def lastN (k : ℕ) (l : List ℝ) : List ℝ := l.drop (l.length - k)

/-- Reward computation of `MarketGraphEnv.step` (market_env.py lines
135 to 156), as a function of the return histories after the current
step's portfolio and benchmark returns have been appended
(`self.agent_returns.append(port_return)` runs at line 132, before the
reward block):
base excess-return term scaled by 100, the penalty
`reward -= 50.0 * np.abs(port_return)` at line 143, the volatility penalty
over the last 20 portfolio returns guarded by
`len(self.agent_returns) > 20`, and the consistency bonus over the last 5
steps guarded by `len(self.agent_returns) > 5` and `recent_excess > 0`. -/
noncomputable def stepReward (agentReturns benchReturns : List ℝ)
    (portReturn benchReturn : ℝ) : ℝ :=
  let excessReturn := portReturn - benchReturn
  let reward0 := excessReturn * 100
  let reward1 := reward0 - 50 * |portReturn|
  let reward2 :=
    if 20 < agentReturns.length then
      reward1 - listStd (lastN 20 agentReturns) * 10
    else reward1
  if 5 < agentReturns.length then
    let recentExcess := listMean (lastN 5 agentReturns) - listMean (lastN 5 benchReturns)
    if 0 < recentExcess then reward2 + recentExcess * 10 else reward2
  else reward2

/-- Reward formula as the claim words it: 100 times the excess return,
minus 10 times the rolling standard deviation of the last 20 portfolio
returns once at least 20 steps have occurred, plus 10 times the mean
excess return over the last 5 steps exactly when that mean is positive,
and no other terms. -/
noncomputable def claimedStepReward (agentReturns benchReturns : List ℝ)
    (portReturn benchReturn : ℝ) : ℝ :=
  (portReturn - benchReturn) * 100
    - (if 20 ≤ agentReturns.length then listStd (lastN 20 agentReturns) * 10 else 0)
    + (if 0 < listMean (lastN 5 agentReturns) - listMean (lastN 5 benchReturns) then
        (listMean (lastN 5 agentReturns) - listMean (lastN 5 benchReturns)) * 10
      else 0)

/-- Reward formula as amended: the code additionally subtracts
50 times the absolute portfolio return, applies the volatility penalty
only once more than 20 returns are recorded, and pays the consistency
bonus only once more than 5 returns are recorded. -/
noncomputable def amendedStepReward (agentReturns benchReturns : List ℝ)
    (portReturn benchReturn : ℝ) : ℝ :=
  (portReturn - benchReturn) * 100
    - 50 * |portReturn|
    - (if 20 < agentReturns.length then listStd (lastN 20 agentReturns) * 10 else 0)
    + (if 5 < agentReturns.length ∧
          0 < listMean (lastN 5 agentReturns) - listMean (lastN 5 benchReturns) then
        (listMean (lastN 5 agentReturns) - listMean (lastN 5 benchReturns)) * 10
      else 0)

/-- Concrete return history for the counterexample: six flat steps then a
one-percent portfolio gain against a flat benchmark. -/
noncomputable def exAgentHist : List ℝ := [0, 0, 0, 0, 0, 0, 1 / 100]

/-- Flat benchmark history of seven steps. -/
noncomputable def exBenchHist : List ℝ := [0, 0, 0, 0, 0, 0, 0]

end MarketEnv

namespace GraphEngine

/-- Sample standard deviation, pandas `Series.std()` with its default
ddof = 1: square root of the sum of squared deviations divided by
length minus one (junk value on lists of length at most one, where pandas
yields NaN; no claim touches that case). -/
noncomputable def sampleStd (l : List ℝ) : ℝ :=
  Real.sqrt ((l.map fun x => (x - MarketEnv.listMean l) ^ 2).sum / ((l.length : ℝ) - 1))

/-- Pandas `pct_change()` of a price column: successive relative changes.
Pandas puts NaN in the first slot and its std and corr skip NaN entries,
so the embedding drops that slot. -/
noncomputable def pctChange (l : List ℝ) : List ℝ :=
  (l.tail.zip l).map fun p => p.1 / p.2 - 1

/-- Pearson correlation of two equal-length columns as pandas
`DataFrame.corr()` computes it, with the `fillna(0)` of graph_engine.py
line 72 applied: a zero denominator (constant column) yields 0. -/
noncomputable def pearson (a b : List ℝ) : ℝ :=
  let am := MarketEnv.listMean a
  let bm := MarketEnv.listMean b
  let num := ((a.zip b).map fun p => (p.1 - am) * (p.2 - bm)).sum
  let den := Real.sqrt ((a.map fun x => (x - am) ^ 2).sum) *
    Real.sqrt ((b.map fun y => (y - bm) ^ 2).sum)
  if den = 0 then 0 else num / den

/-- Indices sorted by descending key, `np.argsort(key)[::-1]`
(graph_engine.py line 89): a stable ascending sort of all indices,
reversed. -/
noncomputable def argsortDesc (n : ℕ) (key : Fin n → ℝ) : List (Fin n) :=
  ((List.finRange n).mergeSort fun a b => decide (key a ≤ key b)).reverse

/-- Neighbor selection for node `i` (graph_engine.py lines 80 to 90):
the indices other than `i` whose key (absolute correlation with `i`)
exceeds the threshold; when fewer than `K = min_neighbors` of those
exist, the top `K` indices other than `i` by descending key instead. -/
noncomputable def selectNeighbors (n : ℕ) (key : Fin n → ℝ) (thr : ℝ) (K : ℕ)
    (i : Fin n) : List (Fin n) :=
  let aboveThreshold := (List.finRange n).filter fun j => decide (thr < key j) && (j != i)
  if K ≤ aboveThreshold.length then aboveThreshold
  else ((argsortDesc n key).filter fun j => j != i).take K

/-- Edge construction loop of graph_engine.py lines 76 to 98: for every
node `i` in order, one directed edge `(i, j)` per selected neighbor `j`,
with the signed correlation as its weight. -/
noncomputable def graphEdges (n : ℕ) (corr : Fin n → Fin n → ℝ) (thr : ℝ) (K : ℕ) :
    List (Fin n × Fin n) × List ℝ :=
  ((List.finRange n).flatMap fun i =>
      (selectNeighbors n (fun j => |corr i j|) thr K i).map fun j => (i, j),
   (List.finRange n).flatMap fun i =>
      (selectNeighbors n (fun j => |corr i j|) thr K i).map fun j => corr i j)

/-- GraphEngine.build_graph (graph_engine.py lines 17 to 100) over a
close-price history given as a list of rows (one close per ticker).
When fewer rows than the window are available it returns the zero
`n` by 4 feature matrix with empty edge lists (lines 36 to 41); otherwise
node features [last return, volatility, momentum, RSI/100] over the last
`w` rows and the correlation-based edges. `rsiFn` abstracts the per-ticker
RSI computation of lines 56 to 64, done by the third-party
`ta.momentum.RSIIndicator` over the full history column with a 50.0
fallback; no claim depends on its value. The momentum guard mirrors the
`fillna(0)` of line 53 catching a zero first price. -/
noncomputable def buildGraph (n : ℕ) (history : List (Fin n → ℝ)) (w : ℕ)
    (thr : ℝ) (K : ℕ) (rsiFn : List ℝ → ℝ) :
    List (List ℝ) × List (Fin n × Fin n) × List ℝ :=
  if history.length < w then
    (List.replicate n (List.replicate 4 0), [], [])
  else
    let closeCol : Fin n → List ℝ := fun j => history.map fun row => row j
    let windowCol : Fin n → List ℝ := fun j =>
      (history.drop (history.length - w)).map fun row => row j
    let pct : Fin n → List ℝ := fun j => pctChange (windowCol j)
    let x := (List.finRange n).map fun j =>
      [(pct j).getLastD 0,
       sampleStd (pct j),
       if (windowCol j).headD 0 = 0 then 0
       else (windowCol j).getLastD 0 / (windowCol j).headD 0 - 1,
       rsiFn (closeCol j) / 100]
    let ew := graphEdges n (fun i j => pearson (pct i) (pct j)) thr K
    (x, ew.1, ew.2)

end GraphEngine

namespace Models

/-- Learned parameters of GNNPolicy (models.py lines 6 to 16): the two
graph-convolution layers and the two linear heads. The convolutions are
the third-party `torch_geometric.nn.GCNConv` modules; their weights are
folded into abstract layer functions usable at any node count, which is
all the claims need. Each linear head carries an explicit weight vector
and bias. -/
structure PolicyParams (f h : ℕ) where
  conv1 : (n : ℕ) → (Fin n → Fin f → ℝ) → List (Fin n × Fin n) → Option (List ℝ) →
    Fin n → Fin h → ℝ
  conv2 : (n : ℕ) → (Fin n → Fin h → ℝ) → List (Fin n × Fin n) → Option (List ℝ) →
    Fin n → Fin h → ℝ
  actorW : Fin h → ℝ
  actorB : ℝ
  criticW : Fin h → ℝ
  criticB : ℝ

/-- Dropout layer `F.dropout(x, p=0.1, training)` (models.py line 31):
inactive when the module is in evaluation mode; in training mode each
unit is kept or zeroed according to the random draw `mask`, kept units
being rescaled by 1/(1-p) = 10/9. -/
noncomputable def dropout (n h : ℕ) (training : Bool) (mask : Fin n → Fin h → Bool)
    (x : Fin n → Fin h → ℝ) : Fin n → Fin h → ℝ :=
  if training then fun i j => if mask i j then x i j * (10 / 9) else 0 else x

/-- GNNPolicy.forward (models.py lines 18 to 48): absolute edge weights
when a nonempty edge-attribute vector is present, two convolutions with
ReLU and the dropout between them, per-node actor logits through the
actor head, and the critic value from the global mean pooling of node
embeddings (the single-graph batch of line 42). `training` is the
module's train/eval flag and `mask` the dropout draw used when it is
set. -/
noncomputable def forward (f h : ℕ) (p : PolicyParams f h) (n : ℕ)
    (x : Fin n → Fin f → ℝ) (edgeIndex : List (Fin n × Fin n))
    (edgeAttr : Option (List ℝ)) (training : Bool)
    (mask : Fin n → Fin h → Bool) : (Fin n → ℝ) × ℝ :=
  let edgeWeight : Option (List ℝ) :=
    match edgeAttr with
    | some ea => if ea.length ≠ 0 then some (ea.map fun w => |w|) else none
    | none => none
  let h1 := fun i j => max 0 (p.conv1 n x edgeIndex edgeWeight i j)
  let h1d := dropout n h training mask h1
  let h2 := fun i j => max 0 (p.conv2 n h1d edgeIndex edgeWeight i j)
  let logits := fun i => (∑ j, p.actorW j * h2 i j) + p.actorB
  let graphEmbed := fun j => (∑ i, h2 i j) / n
  ((logits), (∑ j, p.criticW j * graphEmbed j) + p.criticB)

/-- Identity-like single-feature, single-hidden-unit parameters for the
concrete instances: both convolutions pass features through and both
heads have unit weight and zero bias. -/
noncomputable def idParams : PolicyParams 1 1 where
  conv1 := fun _ x _ _ => x
  conv2 := fun _ x _ _ => x
  actorW := fun _ => 1
  actorB := 0
  criticW := fun _ => 1
  criticB := 0

/-- One node with unit feature. -/
noncomputable def oneNodeX : Fin 1 → Fin 1 → ℝ := fun _ _ => 1

/-- Two nodes, features 1 and 0. -/
noncomputable def twoNodeX : Fin 2 → Fin 1 → ℝ := fun i _ => if i = 0 then 1 else 0

/-- Dropout draw keeping every unit. -/
def maskKeep (n h : ℕ) : Fin n → Fin h → Bool := fun _ _ => true

/-- Dropout draw zeroing every unit. -/
def maskDrop (n h : ℕ) : Fin n → Fin h → Bool := fun _ _ => false

/-- Dropout draw on two nodes zeroing exactly the units of node 0. -/
def maskDropNode0 (h : ℕ) : Fin 2 → Fin h → Bool := fun i _ => decide (i ≠ 0)

end Models

namespace AgentM

/-- Softplus, `F.softplus(x) = log(1 + exp x)`. -/
noncomputable def softplus (x : ℝ) : ℝ := Real.log (1 + Real.exp x)

/-- Dirichlet concentration parameters of Agent.get_action (agent.py
line 38): `alphas = F.softplus(logits) + 1.0`. -/
noncomputable def alphas (n : ℕ) (logits : Fin n → ℝ) : Fin n → ℝ :=
  fun i => softplus (logits i) + 1

/-- Closed-form mean of the Dirichlet distribution used in evaluation
mode (agent.py line 44), as the third-party
`torch.distributions.Dirichlet` computes it: each concentration divided
by their sum. -/
noncomputable def dirichletMean (n : ℕ) (conc : Fin n → ℝ) : Fin n → ℝ :=
  fun i => conc i / ∑ j, conc j

/-- Dirichlet sampling (agent.py line 42) as the third-party
torch sampler realizes it: one positive Gamma variate per coordinate,
normalized by their sum; `g` is the vector of Gamma draws (strictly
positive almost surely). -/
noncomputable def dirichletSample (n : ℕ) (g : Fin n → ℝ) : Fin n → ℝ :=
  fun i => g i / ∑ j, g j

/-- Agent.get_action (agent.py lines 19 to 49) after the policy forward
pass: concentrations from softplus plus one, sampled action in training
mode and the distribution mean in evaluation mode, returned together
with the action's log-probability, the critic value and the
distribution entropy. `logProbFn` and `entropyFn` abstract the
third-party closed forms of `torch.distributions.Dirichlet`. -/
noncomputable def getAction (n : ℕ) (logits : Fin n → ℝ) (value : ℝ)
    (training : Bool) (g : Fin n → ℝ)
    (logProbFn : (Fin n → ℝ) → (Fin n → ℝ) → ℝ)
    (entropyFn : (Fin n → ℝ) → ℝ) : (Fin n → ℝ) × ℝ × ℝ × ℝ :=
  let conc := alphas n logits
  let action := if training then dirichletSample n g else dirichletMean n conc
  (action, logProbFn conc action, value, entropyFn conc)

/-- Loss value as the NaN guard of agent.py line 111 classifies it:
finite, NaN or infinite. -/
inductive LossVal where
  | finite (x : ℝ)
  | nan
  | infinite

/-- The guard `torch.isnan(loss) or torch.isinf(loss)`. -/
def isUnstable : LossVal → Bool
  | .finite _ => false
  | .nan => true
  | .infinite => true

/-- Euclidean norm of a gradient vector. -/
noncomputable def gradNorm (m : ℕ) (g : Fin m → ℝ) : ℝ := Real.sqrt (∑ i, g i ^ 2)

/-- Gradient clipping `torch.nn.utils.clip_grad_norm_(params, max_norm)`
(agent.py line 117) as the third-party utility computes it: scale all
gradients by max_norm / (total_norm + 1e-6) when that coefficient is
below one, leave them unchanged otherwise. -/
noncomputable def clipGradNorm (m : ℕ) (g : Fin m → ℝ) (maxNorm : ℝ) : Fin m → ℝ :=
  let total := gradNorm m g
  let coef := maxNorm / (total + 1 / 1000000)
  if coef < 1 then fun i => g i * coef else g

/-- Data one training episode produces before the update (agent.py lines
57 to 108): the accumulated loss, its gradient in the policy parameters
(autograd output, of fixed dimension `m`), and the episode's total
reward. -/
structure Episode (m : ℕ) where
  loss : LossVal
  grad : Fin m → ℝ
  totalReward : ℝ

/-- Mutable state the per-episode update touches: policy parameters,
Adam optimizer state (abstract types), the reward history
`all_rewards`, and the number of optimizer steps taken. -/
structure TrainState (P S : Type) where
  params : P
  optState : S
  rewards : List ℝ
  stepCount : ℕ

/-- Per-episode update of Agent.train (agent.py lines 110 to 120): skip
everything when the loss is NaN or infinite; otherwise clip the gradient
norm to 1/2, apply exactly one optimizer step (the third-party Adam step
`optStep`), and append the episode's total reward to the history. -/
noncomputable def episodeUpdate {P S : Type} (m : ℕ)
    (optStep : P × S → (Fin m → ℝ) → P × S)
    (st : TrainState P S) (ep : Episode m) : TrainState P S :=
  if isUnstable ep.loss then st
  else
    let g := clipGradNorm m ep.grad (1 / 2)
    let ps := optStep (st.params, st.optState) g
    { params := ps.1, optState := ps.2,
      rewards := st.rewards ++ [ep.totalReward],
      stepCount := st.stepCount + 1 }

/-- The episode loop of Agent.train (agent.py lines 57 to 125): fold the
per-episode update over the episodes. -/
noncomputable def trainLoop {P S : Type} (m : ℕ)
    (optStep : P × S → (Fin m → ℝ) → P × S)
    (st : TrainState P S) : List (Episode m) → TrainState P S
  | [] => st
  | e :: rest => trainLoop m optStep (episodeUpdate m optStep st e) rest

/-- Backward discounted-return accumulation of agent.py lines 83 to 87:
iterate over the rewards in reverse, update `R = r + gamma * R`, and
insert each intermediate value at the front of the result list. -/
noncomputable def discountedReturns (γ : ℝ) (rewards : List ℝ) : List ℝ :=
  (rewards.reverse.foldl
    (fun (p : ℝ × List ℝ) r => (r + γ * p.1, (r + γ * p.1) :: p.2))
    (0, [])).2

/-- Return normalization of agent.py lines 89 to 92: z-score the
discounted returns (torch std, ddof = 1) plus 1e-8 when more than one
return exists, leave them untouched otherwise. -/
noncomputable def processReturns (γ : ℝ) (rewards : List ℝ) : List ℝ :=
  let ret := discountedReturns γ rewards
  if 1 < ret.length then
    ret.map fun x =>
      (x - MarketEnv.listMean ret) / (GraphEngine.sampleStd ret + 1 / 100000000)
  else ret

/-- Persistent stores mapping file paths to saved parameter sets, the
image of `torch.save`/`torch.load` on the policy state dict. -/
def Store (P : Type) : Type := ℕ → Option P

/-- Agent plus the train/eval flag of its policy module; a freshly
constructed Agent's module is in train mode (the nn.Module default). -/
structure AgentState (f h : ℕ) where
  params : Models.PolicyParams f h
  moduleTraining : Bool

/-- Agent.save_model (agent.py lines 127 to 130): write the current
policy parameters at the path. -/
def saveModel {f h : ℕ} (store : Store (Models.PolicyParams f h)) (path : ℕ)
    (st : AgentState f h) : Store (Models.PolicyParams f h) :=
  fun q => if q = path then some st.params else store q

/-- Agent.load_model (agent.py lines 132 to 138): when the path exists,
restore the stored parameters and put the policy in eval mode
(`self.policy.eval()`); otherwise keep the current state and continue. -/
def loadModel {f h : ℕ} (store : Store (Models.PolicyParams f h)) (path : ℕ)
    (st : AgentState f h) : AgentState f h :=
  match store path with
  | some p => { params := p, moduleTraining := false }
  | none => st

/-- Evaluation-mode action weights of an agent on a fixed snapshot:
get_action with training=False runs the forward pass under the module's
own train/eval flag (dropout draw `mask` when that flag is set) and
returns the Dirichlet mean of the resulting concentrations. -/
noncomputable def evalActionWeights {f h : ℕ} (st : AgentState f h) (n : ℕ)
    (x : Fin n → Fin f → ℝ) (edgeIndex : List (Fin n × Fin n))
    (edgeAttr : Option (List ℝ)) (mask : Fin n → Fin h → Bool) : Fin n → ℝ :=
  dirichletMean n (alphas n
    (Models.forward f h st.params n x edgeIndex edgeAttr st.moduleTraining mask).1)

/-- Freshly constructed agent with the identity-like parameters: its
policy module starts in train mode, the nn.Module default. -/
noncomputable def origAgent : AgentState 1 1 :=
  { params := Models.idParams, moduleTraining := true }

/-- A second freshly constructed agent for the parameters to be loaded
into. -/
noncomputable def freshAgent : AgentState 1 1 :=
  { params := Models.idParams, moduleTraining := true }

/-- Store holding nothing at any path. -/
def emptyStore : Store (Models.PolicyParams 1 1) := fun _ => none

/-- Agent obtained by saving the original agent's parameters at path 0
and loading them into the fresh agent. -/
noncomputable def loadedAgent : AgentState 1 1 :=
  loadModel (saveModel emptyStore 0 origAgent) 0 freshAgent

end AgentM

namespace Server

/-- The serving layer's in-memory training status (main.py lines 35 to
45) together with the number of dispatched, unfinished background
training loops. -/
structure SState where
  isTraining : Bool
  episode : ℕ
  total : ℕ
  lastReward : ℝ
  activeJobs : ℕ

/-- Response of the train endpoint. -/
inductive Response where
  | started (episodes : ℕ)
  | alreadyTraining (episode total : ℕ)
deriving DecidableEq

/-- The train endpoint's lock-protected test-and-set (main.py lines 283
to 295) fused with the background-task dispatch of line 372: reject with
the current progress when a job is already running, otherwise mark
training started, reset the progress counters and spawn the loop. The
`state_lock` makes the test-and-set atomic, which is what lets it be one
transition. -/
noncomputable def trainEndpoint (s : SState) (episodes : ℕ) : SState × Response :=
  if s.isTraining then (s, .alreadyTraining s.episode s.total)
  else
    ({ s with
        isTraining := true
        episode := 0
        total := episodes
        lastReward := 0
        activeJobs := s.activeJobs + 1 }, .started episodes)

/-- Lock-protected progress update the background loop performs after
each episode (main.py lines 357 to 359). -/
def progressUpdate (s : SState) (ep : ℕ) (r : ℝ) : SState :=
  { s with episode := ep, lastReward := r }

/-- End of the background loop (main.py lines 366 to 368): the job ends
and training is marked finished. -/
def finishJob (s : SState) : SState :=
  { s with isTraining := false, activeJobs := s.activeJobs - 1 }

/-- Atomic transitions of the serving layer that touch the training
status. -/
inductive Step : SState → SState → Prop
  | train (s : SState) (n : ℕ) : Step s (trainEndpoint s n).1
  | progress (s : SState) (ep : ℕ) (r : ℝ) : Step s (progressUpdate s ep r)
  | finish (s : SState) : Step s (finishJob s)

/-- Initial state (main.py lines 35 to 45): no training running. -/
noncomputable def init : SState :=
  { isTraining := false
    episode := 0
    total := 0
    lastReward := 0
    activeJobs := 0 }

/-- States the serving layer can reach from startup. -/
inductive Reachable : SState → Prop
  | base : Reachable init
  | step (s t : SState) : Reachable s → Step s t → Reachable t

end Server

/-- C1 counterexample: after six flat steps, a step with a one-percent
portfolio gain against a flat benchmark earns the code reward 13/25
(the 50-times-absolute-return penalty applies), while the claimed formula
gives 51/50; the two disagree. -/
theorem c1_reward_formula_cex :
    MarketEnv.stepReward MarketEnv.exAgentHist MarketEnv.exBenchHist (1 / 100) 0 ≠
      MarketEnv.claimedStepReward MarketEnv.exAgentHist MarketEnv.exBenchHist (1 / 100) 0 := by
  have habs : |(1 : ℝ) / 100| = 1 / 100 := abs_of_pos (by norm_num)
  norm_num [MarketEnv.stepReward, MarketEnv.claimedStepReward, MarketEnv.exAgentHist,
    MarketEnv.exBenchHist, MarketEnv.lastN, MarketEnv.listMean, habs]

/-- C1 amended: the step reward equals 100 times the excess return, minus
50 times the absolute portfolio return, minus 10 times the rolling standard
deviation of the last 20 portfolio returns once more than 20 returns are
recorded, plus 10 times the mean excess return over the last 5 steps when
more than 5 returns are recorded and that mean is positive. -/
theorem c1_reward_formula_amended (agentReturns benchReturns : List ℝ)
    (portReturn benchReturn : ℝ) :
    MarketEnv.stepReward agentReturns benchReturns portReturn benchReturn =
      MarketEnv.amendedStepReward agentReturns benchReturns portReturn benchReturn := by
  simp only [MarketEnv.stepReward, MarketEnv.amendedStepReward]
  split_ifs with h1 h2 h3 h4 h5 h6 h7 h8 <;> first | ring1 | tauto

/-- The descending argsort is a permutation of all indices. -/
theorem argsortDesc_perm (n : ℕ) (key : Fin n → ℝ) :
    (GraphEngine.argsortDesc n key).Perm (List.finRange n) :=
  (List.reverse_perm _).trans (List.mergeSort_perm _ _)

/-- Excluding one index from a permutation of all indices leaves
exactly n minus 1 indices. -/
theorem length_filter_ne_of_perm (n : ℕ) (i : Fin n) (l : List (Fin n))
    (h : l.Perm (List.finRange n)) :
    (l.filter fun j => j != i).length = n - 1 := by
  rw [(h.filter _).length_eq, ← (List.nodup_finRange n).erase_eq_filter i,
    List.length_erase_of_mem (List.mem_finRange i), List.length_finRange]

/-- Whenever at least K+1 tickers exist, neighbor selection yields at
least K neighbors: the threshold branch is taken only when it does, and
the k-NN fallback always does. -/
theorem selectNeighbors_length_ge (n : ℕ) (key : Fin n → ℝ) (thr : ℝ) (K : ℕ)
    (i : Fin n) (hn : K + 1 ≤ n) :
    K ≤ (GraphEngine.selectNeighbors n key thr K i).length := by
  simp only [GraphEngine.selectNeighbors]
  split_ifs with h
  · exact h
  · rw [List.length_take, length_filter_ne_of_perm n i _ (argsortDesc_perm n key)]
    omega

/-- Counting matches inside one block of a flatMap bounds the count over
the whole flatMap from below. -/
theorem countP_flatMap_ge {α β : Type} (p : β → Bool) (f : α → List β) :
    ∀ (l : List α) (a : α), a ∈ l → (f a).countP p ≤ (l.flatMap f).countP p := by
  intro l a ha
  induction l with
  | nil => cases ha
  | cons b l ih =>
    rw [List.flatMap_cons, List.countP_append]
    rcases List.mem_cons.mp ha with h | h
    · subst h; exact Nat.le_add_right _ _
    · exact le_trans (ih h) (Nat.le_add_left _ _)

/-- Every node is the source of at least K edges of the edge list,
whenever at least K+1 tickers exist. -/
theorem graphEdges_source_count_ge (n : ℕ) (corr : Fin n → Fin n → ℝ) (thr : ℝ)
    (K : ℕ) (i : Fin n) (hn : K + 1 ≤ n) :
    K ≤ (GraphEngine.graphEdges n corr thr K).1.countP fun e => decide (e.1 = i) := by
  have hblock :
      ((GraphEngine.selectNeighbors n (fun j => |corr i j|) thr K i).map
          fun j => ((i, j) : Fin n × Fin n)).countP (fun e => decide (e.1 = i)) =
        (GraphEngine.selectNeighbors n (fun j => |corr i j|) thr K i).length := by
    rw [List.countP_map]
    simp [Function.comp]
  have hmem := countP_flatMap_ge (fun e : Fin n × Fin n => decide (e.1 = i))
    (fun i2 => (GraphEngine.selectNeighbors n (fun j => |corr i2 j|) thr K i2).map
      fun j => ((i2, j) : Fin n × Fin n))
    (List.finRange n) i (List.mem_finRange i)
  have hmem2 :
      ((GraphEngine.selectNeighbors n (fun j => |corr i j|) thr K i).map
          fun j => ((i, j) : Fin n × Fin n)).countP (fun e => decide (e.1 = i)) ≤
        ((List.finRange n).flatMap fun i2 =>
            (GraphEngine.selectNeighbors n (fun j => |corr i2 j|) thr K i2).map
              fun j => ((i2, j) : Fin n × Fin n)).countP fun e => decide (e.1 = i) := hmem
  have hlen := selectNeighbors_length_ge n (fun j => |corr i j|) thr K i hn
  show K ≤ ((List.finRange n).flatMap fun i2 =>
      (GraphEngine.selectNeighbors n (fun j => |corr i2 j|) thr K i2).map
        fun j => ((i2, j) : Fin n × Fin n)).countP fun e => decide (e.1 = i)
  omega

/-- C2 counterexample: with three tickers and K = 2 the claim also covers
a call whose history is shorter than the window; there the edge list is
empty, so node 0 is the source of no edge at all. -/
theorem c2_knn_fallback_cex :
    2 + 1 ≤ 3 ∧
      ¬ 2 ≤ ((GraphEngine.buildGraph 3 [] 20 (1 / 2) 2 fun _ => 0).2.1.countP
          fun e => decide (e.1 = (0 : Fin 3))) := by
  refine ⟨by norm_num, ?_⟩
  norm_num [GraphEngine.buildGraph]

/-- C2 amended: in every build_graph call whose history has at least
window-size rows and whose universe has at least K+1 tickers, every node
is the source of at least K edges of the returned edge list, whatever the
correlations are. -/
theorem c2_knn_fallback_min_degree (n w K : ℕ) (thr : ℝ)
    (history : List (Fin n → ℝ)) (rsiFn : List ℝ → ℝ)
    (hw : w ≤ history.length) (hn : K + 1 ≤ n) (i : Fin n) :
    K ≤ ((GraphEngine.buildGraph n history w thr K rsiFn).2.1.countP
        fun e => decide (e.1 = i)) := by
  unfold GraphEngine.buildGraph
  rw [if_neg (by omega)]
  exact graphEdges_source_count_ge n _ thr K i hn

/-- C2 witness: one ticker more than K = 2 with a one-row history and
window 1; node 0 has at least two outgoing edges. -/
theorem c2_knn_fallback_witness :
    2 ≤ ((GraphEngine.buildGraph 3 [fun _ => 1] 1 (1 / 2) 2 fun _ => 0).2.1.countP
        fun e => decide (e.1 = (0 : Fin 3))) :=
  c2_knn_fallback_min_degree 3 1 2 (1 / 2) [fun _ => 1] (fun _ => 0)
    (by simp) (by norm_num) 0

/-- C3: whenever the available history has fewer rows than the window,
build_graph returns the all-zero n by 4 feature matrix, the empty edge
list and empty edge weights (and, being a total function, raises
nothing). -/
theorem c3_insufficient_history_zero (n : ℕ) (history : List (Fin n → ℝ))
    (w : ℕ) (thr : ℝ) (K : ℕ) (rsiFn : List ℝ → ℝ)
    (h : history.length < w) :
    GraphEngine.buildGraph n history w thr K rsiFn =
      (List.replicate n (List.replicate 4 0), [], []) := by
  unfold GraphEngine.buildGraph
  rw [if_pos h]

/-- C3 witness: two tickers, an empty history and window 20 yield the
zero 2 by 4 feature matrix and no edges. -/
theorem c3_insufficient_history_witness :
    GraphEngine.buildGraph 2 [] 20 0 2 (fun _ => 0) =
      (List.replicate 2 (List.replicate 4 0), [], []) :=
  c3_insufficient_history_zero 2 [] 20 0 2 (fun _ => 0) (by simp)

/-- C8 counterexample: with identity-like parameters on a single node
with unit feature, two training-mode forward passes whose dropout draws
differ (one keeps the unit, one zeroes it) return different logits, so
the forward pass is not two-run deterministic while the module is in
train mode. -/
theorem c8_forward_two_run_cex :
    (Models.forward 1 1 Models.idParams 1 Models.oneNodeX [] none true
        (Models.maskKeep 1 1)).1 0 ≠
      (Models.forward 1 1 Models.idParams 1 Models.oneNodeX [] none true
        (Models.maskDrop 1 1)).1 0 := by
  simp [Models.forward, Models.dropout, Models.idParams, Models.oneNodeX,
    Models.maskKeep, Models.maskDrop]

/-- C8 amended: with the module in evaluation mode the dropout layer is
inactive, so the forward pass does not depend on the dropout draw: two
passes on identical inputs with fixed parameters return identical
per-asset logits and identical value, whatever the draws were. -/
theorem c8_forward_eval_deterministic (f h : ℕ) (p : Models.PolicyParams f h)
    (n : ℕ) (x : Fin n → Fin f → ℝ) (edgeIndex : List (Fin n × Fin n))
    (edgeAttr : Option (List ℝ)) (m1 m2 : Fin n → Fin h → Bool) :
    Models.forward f h p n x edgeIndex edgeAttr false m1 =
      Models.forward f h p n x edgeIndex edgeAttr false m2 := rfl

/-- Softplus is strictly positive, so every Dirichlet concentration
`softplus(logit) + 1` exceeds one. -/
theorem alphas_pos (n : ℕ) (logits : Fin n → ℝ) (i : Fin n) :
    0 < AgentM.alphas n logits i := by
  unfold AgentM.alphas AgentM.softplus
  have hexp := Real.exp_pos (logits i)
  have hlog : 0 < Real.log (1 + Real.exp (logits i)) :=
    Real.log_pos (by linarith)
  linarith

/-- C4: get_action builds strictly positive Dirichlet concentrations via
softplus plus one; the training-mode action is the normalized vector of
the positive Gamma draws, hence has strictly positive entries summing to
one; the evaluation-mode action is the closed-form Dirichlet mean, which
also sums to one; and both modes return the tuple of action,
log-probability, value estimate and entropy. -/
theorem c4_get_action_dirichlet (n : ℕ) (logits : Fin n → ℝ) (value : ℝ)
    (g : Fin n → ℝ)
    (logProbFn : (Fin n → ℝ) → (Fin n → ℝ) → ℝ) (entropyFn : (Fin n → ℝ) → ℝ)
    (hn : 0 < n) (hg : ∀ i, 0 < g i) :
    (∀ i, 0 < AgentM.alphas n logits i) ∧
    (∀ i, 0 < (AgentM.getAction n logits value true g logProbFn entropyFn).1 i) ∧
    (∑ i, (AgentM.getAction n logits value true g logProbFn entropyFn).1 i) = 1 ∧
    (AgentM.getAction n logits value false g logProbFn entropyFn =
      (AgentM.dirichletMean n (AgentM.alphas n logits),
       logProbFn (AgentM.alphas n logits) (AgentM.dirichletMean n (AgentM.alphas n logits)),
       value, entropyFn (AgentM.alphas n logits))) ∧
    (∑ i, AgentM.dirichletMean n (AgentM.alphas n logits) i) = 1 ∧
    (AgentM.getAction n logits value true g logProbFn entropyFn =
      (AgentM.dirichletSample n g,
       logProbFn (AgentM.alphas n logits) (AgentM.dirichletSample n g),
       value, entropyFn (AgentM.alphas n logits))) := by
  haveI : Nonempty (Fin n) := Fin.pos_iff_nonempty.mp hn
  have hgs : 0 < ∑ j, g j := Finset.sum_pos (fun i _ => hg i) Finset.univ_nonempty
  have has : 0 < ∑ j, AgentM.alphas n logits j :=
    Finset.sum_pos (fun i _ => alphas_pos n logits i) Finset.univ_nonempty
  refine ⟨alphas_pos n logits, ?_, ?_, ?_, ?_, ?_⟩
  · intro i
    simp only [AgentM.getAction, AgentM.dirichletSample, if_true]
    exact div_pos (hg i) hgs
  · simp only [AgentM.getAction, AgentM.dirichletSample, if_true]
    rw [← Finset.sum_div, div_self hgs.ne']
  · rfl
  · simp only [AgentM.dirichletMean]
    rw [← Finset.sum_div, div_self has.ne']
  · rfl

/-- C4 witness: one asset, zero logit, unit Gamma draw; the sampled
weights sum to one. -/
theorem c4_get_action_witness :
    (∑ i, (AgentM.getAction 1 (fun _ => 0) 0 true (fun _ => 1)
        (fun _ _ => 0) (fun _ => 0)).1 i) = 1 :=
  (c4_get_action_dirichlet 1 (fun _ => 0) 0 (fun _ => 1) (fun _ _ => 0)
    (fun _ => 0) (by norm_num) (fun _ => one_pos)).2.2.1

/-- Norm of a uniformly scaled gradient: the scale factor comes out in
absolute value. -/
theorem gradNorm_smul (m : ℕ) (g : Fin m → ℝ) (c : ℝ) :
    AgentM.gradNorm m (fun i => g i * c) = |c| * AgentM.gradNorm m g := by
  unfold AgentM.gradNorm
  rw [← Real.sqrt_sq_eq_abs, ← Real.sqrt_mul (sq_nonneg c)]
  congr 1
  rw [Finset.mul_sum]
  exact Finset.sum_congr rfl fun i _ => by ring

/-- The clipped gradient's norm never exceeds the maximum 1/2. -/
theorem gradNorm_clip_le (m : ℕ) (g : Fin m → ℝ) :
    AgentM.gradNorm m (AgentM.clipGradNorm m g (1 / 2)) ≤ 1 / 2 := by
  simp only [AgentM.clipGradNorm]
  have ht0 : 0 ≤ AgentM.gradNorm m g := Real.sqrt_nonneg _
  have htp : (0 : ℝ) < AgentM.gradNorm m g + 1 / 1000000 := by linarith
  split_ifs with hc
  · rw [gradNorm_smul]
    have hcpos : (0 : ℝ) < 1 / 2 / (AgentM.gradNorm m g + 1 / 1000000) := by positivity
    rw [abs_of_pos hcpos, div_mul_eq_mul_div, div_le_iff₀ htp]
    nlinarith
  · push_neg at hc
    rw [le_div_iff₀ htp] at hc
    linarith

/-- C5: a NaN or infinite episode loss skips the optimizer step, leaving
parameters, optimizer state, reward history and step count unchanged,
and the training loop continues with the remaining episodes; a finite
loss applies exactly one optimizer step on the gradient clipped to norm
at most 1/2. -/
theorem c5_nan_guard_and_clip (P S : Type) (m : ℕ)
    (optStep : P × S → (Fin m → ℝ) → P × S) (st : AgentM.TrainState P S)
    (g : Fin m → ℝ) (r x : ℝ) (rest : List (AgentM.Episode m)) :
    (AgentM.episodeUpdate m optStep st ⟨.nan, g, r⟩ = st) ∧
    (AgentM.episodeUpdate m optStep st ⟨.infinite, g, r⟩ = st) ∧
    (AgentM.trainLoop m optStep st (⟨.nan, g, r⟩ :: rest) =
      AgentM.trainLoop m optStep st rest) ∧
    (AgentM.episodeUpdate m optStep st ⟨.finite x, g, r⟩ =
      { params := (optStep (st.params, st.optState)
          (AgentM.clipGradNorm m g (1 / 2))).1,
        optState := (optStep (st.params, st.optState)
          (AgentM.clipGradNorm m g (1 / 2))).2,
        rewards := st.rewards ++ [r],
        stepCount := st.stepCount + 1 }) ∧
    AgentM.gradNorm m (AgentM.clipGradNorm m g (1 / 2)) ≤ 1 / 2 := by
  refine ⟨rfl, rfl, ?_, rfl, gradNorm_clip_le m g⟩
  show AgentM.trainLoop m optStep
      (AgentM.episodeUpdate m optStep st ⟨.nan, g, r⟩) rest =
    AgentM.trainLoop m optStep st rest
  rfl

/-- The running accumulator of the backward fold equals the head of the
list built so far (zero before any element was processed). -/
theorem discountedReturns_fold_fst (γ : ℝ) (l : List ℝ) :
    (l.foldl (fun (p : ℝ × List ℝ) r => (r + γ * p.1, (r + γ * p.1) :: p.2))
        (0, [])).1 =
      (l.foldl (fun (p : ℝ × List ℝ) r => (r + γ * p.1, (r + γ * p.1) :: p.2))
        (0, [])).2.headD 0 := by
  induction l using List.reverseRecOn with
  | nil => simp
  | append_singleton l a ih => rw [List.foldl_append]; simp

/-- Backward-accumulation recurrence of the discounted returns: the
return at a step is its reward plus gamma times the next step's return
(zero past the episode's end). -/
theorem discountedReturns_cons (γ r : ℝ) (rest : List ℝ) :
    AgentM.discountedReturns γ (r :: rest) =
      (r + γ * (AgentM.discountedReturns γ rest).headD 0) ::
        AgentM.discountedReturns γ rest := by
  unfold AgentM.discountedReturns
  rw [List.reverse_cons, List.foldl_append, List.foldl_cons, List.foldl_nil,
    discountedReturns_fold_fst]

/-- One discounted return per reward. -/
theorem discountedReturns_length (γ : ℝ) (rewards : List ℝ) :
    (AgentM.discountedReturns γ rewards).length = rewards.length := by
  induction rewards with
  | nil => rfl
  | cons r rest ih => rw [discountedReturns_cons]; simp [ih]

/-- C6: the returns are the backward accumulation R = r + gamma R over
the episode (one per reward, satisfying the recurrence); with more than
one step they are z-score normalized (mean subtracted, divided by the
standard deviation plus 1e-8), and a single-step episode keeps its raw
discounted return unnormalized. -/
theorem c6_discounted_returns_normalization (γ : ℝ) :
    (∀ rewards, (AgentM.discountedReturns γ rewards).length = rewards.length) ∧
    (∀ r rest, AgentM.discountedReturns γ (r :: rest) =
      (r + γ * (AgentM.discountedReturns γ rest).headD 0) ::
        AgentM.discountedReturns γ rest) ∧
    (∀ rewards, 1 < rewards.length →
      AgentM.processReturns γ rewards =
        (AgentM.discountedReturns γ rewards).map fun x =>
          (x - MarketEnv.listMean (AgentM.discountedReturns γ rewards)) /
            (GraphEngine.sampleStd (AgentM.discountedReturns γ rewards) +
              1 / 100000000)) ∧
    (∀ r, AgentM.processReturns γ [r] = [r]) := by
  refine ⟨discountedReturns_length γ, discountedReturns_cons γ, ?_, ?_⟩
  · intro rewards hlen
    unfold AgentM.processReturns
    rw [if_pos]
    rw [discountedReturns_length]
    exact hlen
  · intro r
    unfold AgentM.processReturns
    rw [if_neg (by rw [discountedReturns_length]; simp)]
    rw [discountedReturns_cons]
    norm_num [AgentM.discountedReturns]

/-- The reward history the training loop accumulates is exactly one
total reward per stable-loss episode, in order, appended to whatever
history the loop started from. -/
theorem trainLoop_rewards (P S : Type) (m : ℕ)
    (optStep : P × S → (Fin m → ℝ) → P × S) :
    ∀ (eps : List (AgentM.Episode m)) (st : AgentM.TrainState P S),
      (AgentM.trainLoop m optStep st eps).rewards =
        st.rewards ++
          (eps.filter fun e => !AgentM.isUnstable e.loss).map fun e => e.totalReward := by
  intro eps
  induction eps with
  | nil => intro st; simp [AgentM.trainLoop]
  | cons e rest ih =>
    intro st
    show (AgentM.trainLoop m optStep (AgentM.episodeUpdate m optStep st e) rest).rewards = _
    rw [ih]
    cases hu : AgentM.isUnstable e.loss with
    | true =>
      simp only [AgentM.episodeUpdate, hu, if_true, List.filter_cons, Bool.not_true,
        Bool.false_eq_true, if_false]
    | false =>
      simp only [AgentM.episodeUpdate, hu, Bool.false_eq_true, if_false,
        List.filter_cons, Bool.not_false, if_true, List.map_cons]
      simp [List.append_assoc]

/-- C10: Agent.train returns one reward entry per episode whose
optimizer step was applied (the stable-loss episodes, in order); a
NaN-or-infinite-loss episode contributes no entry, so whenever at least
one episode is skipped the returned history is strictly shorter than
the requested episode count. -/
theorem c10_reward_history_per_applied_step (P S : Type) (m : ℕ)
    (optStep : P × S → (Fin m → ℝ) → P × S) (p : P) (s : S) :
    (∀ (eps : List (AgentM.Episode m)) (st : AgentM.TrainState P S),
      (AgentM.trainLoop m optStep st eps).rewards =
        st.rewards ++
          (eps.filter fun e => !AgentM.isUnstable e.loss).map fun e => e.totalReward) ∧
    (∀ (eps : List (AgentM.Episode m)),
      (∃ e ∈ eps, AgentM.isUnstable e.loss = true) →
      (AgentM.trainLoop m optStep ⟨p, s, [], 0⟩ eps).rewards.length < eps.length) := by
  refine ⟨trainLoop_rewards P S m optStep, ?_⟩
  intro eps ⟨e, he, hu⟩
  rw [trainLoop_rewards P S m optStep eps ⟨p, s, [], 0⟩]
  simp only [List.nil_append, List.length_map]
  have hsplit := List.length_eq_length_filter_add
    (l := eps) (fun e => !AgentM.isUnstable e.loss)
  have hmem : e ∈ eps.filter fun e => !(!AgentM.isUnstable e.loss) := by
    rw [List.mem_filter]
    exact ⟨he, by rw [hu]; rfl⟩
  have hpos : 0 < (eps.filter fun e => !(!AgentM.isUnstable e.loss)).length :=
    List.length_pos.mpr (List.ne_nil_of_mem hmem)
  omega

/-- Invariant of the serving layer: at most one background training loop
is ever active, and none is active while training is marked off. -/
theorem server_reachable_invariant (s : Server.SState) (h : Server.Reachable s) :
    s.activeJobs ≤ 1 ∧ (s.isTraining = false → s.activeJobs = 0) := by
  induction h with
  | base => simp [Server.init]
  | step u v hu hstep ih =>
    cases hstep with
    | train n =>
      by_cases hT : u.isTraining
      · simpa [Server.trainEndpoint, hT] using ih
      · have h0 := ih.2 (by simpa using hT)
        simp [Server.trainEndpoint, hT, h0]
    | progress ep r =>
      simpa [Server.progressUpdate] using ih
    | finish =>
      have h1 := ih.1
      refine ⟨?_, fun _ => ?_⟩ <;> simp only [Server.finishJob] <;> omega

/-- C9: in every reachable state of the serving layer at most one
training loop is active; a train request while a job runs is answered
with the already-training status carrying the current progress and
changes nothing, and even a successful request leaves at most one
active loop, so gradients are never applied by two interleaved loops. -/
theorem c9_single_training_job (s : Server.SState) (h : Server.Reachable s) (n : ℕ) :
    s.activeJobs ≤ 1 ∧
    ((Server.trainEndpoint s n).1).activeJobs ≤ 1 ∧
    (s.isTraining = true →
      Server.trainEndpoint s n =
        (s, Server.Response.alreadyTraining s.episode s.total)) := by
  have hi := server_reachable_invariant s h
  refine ⟨hi.1, ?_, ?_⟩
  · by_cases hT : s.isTraining
    · simpa [Server.trainEndpoint, hT] using hi.1
    · have h0 := hi.2 (by simpa using hT)
      simp [Server.trainEndpoint, hT, h0]
  · intro hT
    simp [Server.trainEndpoint, hT]

/-- C9 witness: from the initial state, one train request leaves at most
one active training loop. -/
theorem c9_single_training_job_witness :
    ((Server.trainEndpoint Server.init 7).1).activeJobs ≤ 1 :=
  (c9_single_training_job Server.init Server.Reachable.base 7).2.1

/-- A normalized share strictly exceeding its partner is never one
half. -/
theorem share_ne_half (a b : ℝ) (hpos : 0 < b) (hlt : b < a) :
    a / (a + b) ≠ 1 / 2 := by
  intro heq
  have hab : a + b ≠ 0 := ne_of_gt (by linarith)
  field_simp at heq
  linarith

/-- Softplus is strictly positive. -/
theorem softplus_pos (x : ℝ) : 0 < AgentM.softplus x := by
  unfold AgentM.softplus
  have := Real.exp_pos x
  exact Real.log_pos (by linarith)

/-- Softplus at one exceeds softplus at zero. -/
theorem softplus_zero_lt_one : AgentM.softplus 0 < AgentM.softplus 1 := by
  unfold AgentM.softplus
  apply Real.log_lt_log (by positivity)
  have h2 : (2 : ℝ) ≤ Real.exp 1 := by
    have := Real.add_one_le_exp (1 : ℝ)
    linarith
  rw [Real.exp_zero]
  linarith

/-- C7 counterexample: the original agent is freshly constructed, so its
policy module is in train mode and its forward pass applies random
dropout even inside an evaluation-mode get_action call; with the dropout
draw that zeroes node 0 its action weight on asset 0 is one half, while
the loaded agent (whose module load_model put in eval mode) gives asset
0 strictly more than half, so the two evaluation-mode actions differ. -/
theorem c7_roundtrip_cex :
    AgentM.evalActionWeights AgentM.loadedAgent 2 Models.twoNodeX [] none
        (Models.maskKeep 2 1) 0 ≠
      AgentM.evalActionWeights AgentM.origAgent 2 Models.twoNodeX [] none
        (Models.maskDropNode0 1) 0 := by
  have hleft :
      AgentM.evalActionWeights AgentM.loadedAgent 2 Models.twoNodeX [] none
          (Models.maskKeep 2 1) 0 =
        (AgentM.softplus 1 + 1) /
          ((AgentM.softplus 1 + 1) + (AgentM.softplus 0 + 1)) := by
    simp [AgentM.evalActionWeights, AgentM.loadedAgent, AgentM.loadModel,
      AgentM.saveModel, AgentM.emptyStore, AgentM.origAgent, AgentM.freshAgent,
      Models.forward, Models.dropout, Models.idParams, Models.twoNodeX,
      Models.maskKeep, AgentM.dirichletMean, AgentM.alphas,
      Fin.sum_univ_two, Fin.sum_univ_one]
  have hright :
      AgentM.evalActionWeights AgentM.origAgent 2 Models.twoNodeX [] none
          (Models.maskDropNode0 1) 0 = 1 / 2 := by
    have hsp := softplus_pos 0
    simp [AgentM.evalActionWeights, AgentM.origAgent, Models.forward,
      Models.dropout, Models.idParams, Models.twoNodeX, Models.maskDropNode0,
      AgentM.dirichletMean, AgentM.alphas, Fin.sum_univ_two, Fin.sum_univ_one]
    have hb0 : AgentM.softplus 0 + 1 ≠ 0 := by linarith
    rw [show AgentM.softplus 0 + 1 + (AgentM.softplus 0 + 1) =
      2 * (AgentM.softplus 0 + 1) from by ring]
    rw [div_mul_eq_div_div_swap, div_self hb0]
    norm_num
  rw [hleft, hright]
  exact share_ne_half (AgentM.softplus 1 + 1) (AgentM.softplus 0 + 1)
    (by have := softplus_pos 0; linarith)
    (by have := softplus_zero_lt_one; linarith)

/-- C7 amended: save_model then load_model restores exactly the saved
parameters and puts the loaded policy in eval mode, so the loaded
agent's evaluation-mode action equals the original parameters' action
computed with dropout inactive (identical to an original run whenever
the original's module is also in eval mode); load_model from a missing
path is non-fatal and keeps the freshly initialized agent unchanged. -/
theorem c7_save_load_roundtrip (f h : ℕ)
    (store : AgentM.Store (Models.PolicyParams f h)) (path path2 : ℕ)
    (orig fresh fresh2 : AgentM.AgentState f h) (n : ℕ)
    (x : Fin n → Fin f → ℝ) (edgeIndex : List (Fin n × Fin n))
    (edgeAttr : Option (List ℝ)) (mask : Fin n → Fin h → Bool)
    (hmiss : store path2 = none) :
    (AgentM.loadModel (AgentM.saveModel store path orig) path fresh).params =
      orig.params ∧
    (AgentM.loadModel (AgentM.saveModel store path orig) path fresh).moduleTraining =
      false ∧
    AgentM.evalActionWeights
        (AgentM.loadModel (AgentM.saveModel store path orig) path fresh)
        n x edgeIndex edgeAttr mask =
      AgentM.dirichletMean n (AgentM.alphas n
        (Models.forward f h orig.params n x edgeIndex edgeAttr false mask).1) ∧
    AgentM.loadModel store path2 fresh2 = fresh2 := by
  refine ⟨?_, ?_, ?_, ?_⟩ <;>
    simp [AgentM.loadModel, AgentM.saveModel, AgentM.evalActionWeights, hmiss]

/-- C7 witness: saving the concrete original agent at path 0 and loading
from the empty store's path 1 keeps the fresh agent unchanged. -/
theorem c7_save_load_roundtrip_witness :
    AgentM.loadModel AgentM.emptyStore 1 AgentM.freshAgent = AgentM.freshAgent :=
  (c7_save_load_roundtrip 1 1 AgentM.emptyStore 0 1 AgentM.origAgent
    AgentM.freshAgent AgentM.freshAgent 1 Models.oneNodeX [] none
    (Models.maskKeep 1 1) rfl).2.2.2
